import Mathlib

/-!
Verification development for the image-label web utility (Go, src/main.go).

The Go program serves a paginated grid of image files from a working
directory, accepts label-assignment requests that move files into label
subfolders, and on shutdown packs all label subfolders into a zip archive.

This file gives a shallow embedding of the pure logic of the program:
  - the pagination arithmetic of homeHandler,
  - the form validation and filesystem effect of labelHandler,
  - loadLabelChoices (label registry loading),
  - getImages (image listing),
  - createResultZip (archiver walk),
  - moveFile (rename with copy-and-delete fallback).

Filesystem side effects are modelled by explicit state passing; the
success or failure of the individual OS primitives (rename, open, create,
copy, remove, mkdir) is supplied by explicit oracle records, so that both
the happy paths and the error paths of the Go code are represented.
-/

/-! ## Model of moveFile (src/main.go lines 352-379)

moveFile first tries os.Rename; on success it is done. Otherwise it
opens the source, creates the destination, stream-copies the bytes and
removes the source; each of those four primitives can fail, and the
function returns at the first failure without any cleanup. The content
standing at a path is abstracted to full (the complete file),
halfCopied (a destination file left behind by a stream copy that failed
midway; Go io.Copy stops at the first read or write error) or empty (a
destination file just created or truncated by os.Create).
-/

inductive FileData where
  | full
  | halfCopied
  | empty
deriving DecidableEq, Repr

/-- State of the two paths a moveFile call touches: what is readable at
the source path and at the destination path. -/
structure MoveState where
  src : Option FileData
  dst : Option FileData
deriving DecidableEq, Repr

/-- Environment oracle for one moveFile call: whether each OS primitive
the call may attempt succeeds. A primitive that is never attempted has
its flag ignored. Rename and remove additionally require the source to
exist, and open requires the source to exist, since those primitives
cannot succeed on a missing file. -/
structure MoveOracle where
  renameOk : Bool
  openOk : Bool
  createOk : Bool
  copyOk : Bool
  removeOk : Bool
deriving DecidableEq, Repr

/-- Result of a moveFile call: the intermediate states after each
executed primitive (the initial state first), the final state, and
whether the call returned nil. -/
structure MoveOutcome where
  states : List MoveState
  final : MoveState
  success : Bool
deriving DecidableEq, Repr

/-- Embedding of moveFile. Mirrors the Go control flow: rename; on
failure open source, create destination, copy, remove source, returning
at the first failing step. -/
def moveFile (o : MoveOracle) (s0 : MoveState) : MoveOutcome :=
  -- os.Rename(src, dst)
  if o.renameOk && s0.src.isSome then
    let s1 : MoveState := ⟨none, s0.src⟩
    ⟨[s0, s1], s1, true⟩
  else
    -- os.Open(src)
    if !(o.openOk && s0.src.isSome) then ⟨[s0], s0, false⟩
    else
      -- os.Create(dst)
      if !o.createOk then ⟨[s0], s0, false⟩
      else
        let s2 : MoveState := ⟨s0.src, some .empty⟩
        -- io.Copy(destFile, sourceFile)
        if !o.copyOk then
          let s3 : MoveState := ⟨s0.src, some .halfCopied⟩
          ⟨[s0, s2, s3], s3, false⟩
        else
          let s4 : MoveState := ⟨s0.src, some .full⟩
          -- os.Remove(src)
          if !o.removeOk then ⟨[s0, s2, s4], s4, false⟩
          else
            let s5 : MoveState := ⟨none, some .full⟩
            ⟨[s0, s2, s4, s5], s5, true⟩

/-! ## Model of Go strconv.Atoi

Go's strconv.Atoi accepts an optional leading sign followed by one or
more ASCII digits and nothing else; any other input yields an error.
Integer overflow of the 64-bit range is not modelled (page and label
indices are small). The result is an unbounded Int.
-/

def digitVal (c : Char) : Nat := c.toNat - '0'.toNat

def digitsVal (ds : List Char) : Nat :=
  ds.foldl (fun acc c => acc * 10 + digitVal c) 0

def allDigits (ds : List Char) : Bool :=
  ds.all fun c => '0' ≤ c && c ≤ '9'

def goAtoi (s : String) : Option Int :=
  match s.data with
  | [] => none
  | '+' :: ds =>
    if !ds.isEmpty && allDigits ds then some (digitsVal ds : Int) else none
  | '-' :: ds =>
    if !ds.isEmpty && allDigits ds then some (-(digitsVal ds : Int)) else none
  | ds =>
    if allDigits ds then some (digitsVal ds : Int) else none

/-! ## Pagination (homeHandler, src/main.go lines 205-258)

homeHandler reads the page query parameter with strconv.Atoi, resets it
to 1 on a parse error or a value below 1, computes the total page count
from the image list, clamps the page from above, and slices the image
list. The constant itemsPerPage is 10 in the source.
-/

def itemsPerPage : Nat := 10

structure LabelChoice where
  index : Nat
  text : String
deriving DecidableEq, Repr

structure PageData where
  images : List String
  currentPage : Int
  totalPages : Nat
  labels : List LabelChoice
deriving DecidableEq, Repr

/-- Page number after the first adjustment in homeHandler: a parse error
or a value below 1 resets the page to 1. -/
def resolveRawPage (pageStr : String) : Int :=
  match goAtoi pageStr with
  | none => 1
  | some p => if p < 1 then 1 else p

/-- Total page count in homeHandler: integer division rounding up, then
the zero case is raised to 1. -/
def computeTotalPages (totalImages : Nat) : Nat :=
  let totalPages := (totalImages + itemsPerPage - 1) / itemsPerPage
  if totalPages = 0 then 1 else totalPages

/-- Upper clamp of the page number in homeHandler. -/
def clampPage (page : Int) (totalPages : Nat) : Int :=
  if page > (totalPages : Int) then (totalPages : Int) else page

/-- Slice of the image list computed by homeHandler for a (already
clamped) page number. -/
def pageSlice (images : List String) (page : Int) : List String :=
  let totalImages := images.length
  let startIdx : Nat := ((page - 1) * (itemsPerPage : Int)).toNat
  let endIdx : Nat := min (startIdx + itemsPerPage) totalImages
  if startIdx < totalImages then (images.drop startIdx).take (endIdx - startIdx) else []

/-- Embedding of the pagination and label-listing logic of homeHandler.
The template-rendering part of the handler is pure presentation and is
not modelled. Counts and indices are nonnegative Go ints, modelled by
Nat; the requested page is a user-supplied integer, modelled by Int. -/
def homeHandler (labelChoices : List String) (images : List String)
    (pageStr : String) : PageData :=
  let totalPages := computeTotalPages images.length
  let page := clampPage (resolveRawPage pageStr) totalPages
  let labels := (List.range labelChoices.length).map
    (fun i => ⟨i + 1, labelChoices.getD i ""⟩)
  ⟨pageSlice images page, page, totalPages, labels⟩

/-- Half-open slice of a list over index range a to b, as the spec words
the returned page: the elements at positions a, a+1, ..., b-1. -/
def sliceSpec (l : List String) (a b : Nat) : List String :=
  (l.drop a).take (b - a)

/-! ## Model of the working directory and labelHandler
(src/main.go lines 278-325)

The working directory (imagesDir) holds files at its root plus one-level
label subfolders created by labelHandler. An association list maps each
filename (or subfolder name) to its content; lookups take the first
match. labelHandler validates the request, creates the label subfolder
with os.MkdirAll, and calls moveFile from root/image to subfolder/image.
-/

structure FileSys where
  root : List (String × FileData)
  sub : List (String × List (String × FileData))
deriving DecidableEq, Repr

/-- First entry of an association list under a key. -/
def assocLookup {β : Type} : List (String × β) → String → Option β
  | [], _ => none
  | e :: rest, name => if e.1 = name then some e.2 else assocLookup rest name

/-- Replaces (or removes, for none) the entry for a name in a file
association list. -/
def setEntry (files : List (String × FileData)) (name : String) :
    Option FileData → List (String × FileData)
  | none => files.filter (fun e => !(e.1 == name))
  | some v => (name, v) :: files.filter (fun e => !(e.1 == name))

def FileSys.getRootFile (fs : FileSys) (name : String) : Option FileData :=
  assocLookup fs.root name

def FileSys.getSubFile (fs : FileSys) (d name : String) : Option FileData :=
  (assocLookup fs.sub d).bind (fun files => assocLookup files name)

def FileSys.hasDir (fs : FileSys) (d : String) : Bool :=
  (assocLookup fs.sub d).isSome

def FileSys.setRootFile (fs : FileSys) (name : String) (v : Option FileData) :
    FileSys :=
  ⟨setEntry fs.root name v, fs.sub⟩

def FileSys.setSubFile (fs : FileSys) (d name : String) (v : Option FileData) :
    FileSys :=
  ⟨fs.root, fs.sub.map (fun e => if e.1 = d then (e.1, setEntry e.2 name v) else e)⟩

/-- Effect of os.MkdirAll(imagesDir/d): creates the subfolder if absent,
succeeds trivially when it already exists. -/
def FileSys.mkdir (fs : FileSys) (d : String) : FileSys :=
  if fs.hasDir d then fs else ⟨fs.root, (d, []) :: fs.sub⟩

/-- moveFile lifted to the working directory, moving root/name to
d/name: the states of the two paths are extracted, the abstract moveFile
runs on them, and the final state is written back. -/
def moveRootToSub (o : MoveOracle) (fs : FileSys) (name d : String) :
    Bool × FileSys :=
  let out := moveFile o ⟨fs.getRootFile name, fs.getSubFile d name⟩
  (out.success, (fs.setRootFile name out.final.src).setSubFile d name out.final.dst)

structure HttpResponse where
  status : Nat
  body : String
deriving DecidableEq, Repr

/-- Form data of a request to /label. Go's r.FormValue returns the empty
string when a field is missing, so a missing field is the empty string. -/
structure LabelRequest where
  method : String
  image : String
  label : String
deriving DecidableEq, Repr

/-- Environment oracle for one labelHandler call: whether os.MkdirAll
succeeds, and the oracle for the moveFile call. -/
structure FsOracle where
  mkdirOk : Bool
  mv : MoveOracle
deriving DecidableEq, Repr

/-- Embedding of labelHandler. Response bodies are the strings written
by http.Error (which appends a newline) and by the success path. -/
def labelHandler (labelChoices : List String) (o : FsOracle)
    (req : LabelRequest) (fs : FileSys) : HttpResponse × FileSys :=
  if req.method ≠ "POST" then
    (⟨405, "Method not allowed\n"⟩, fs)
  else
    let imageName := req.image
    let labelStr := req.label
    if imageName = "" ∨ labelStr = "" then
      (⟨400, "Missing image or label\n"⟩, fs)
    else
      match goAtoi labelStr with
      | none => (⟨400, "Invalid label\n"⟩, fs)
      | some labelIndex =>
        if labelIndex < 1 ∨ labelIndex > (labelChoices.length : Int) then
          (⟨400, "Invalid label\n"⟩, fs)
        else
          -- labelChoices[labelIndex-1]; the guard puts the index in bounds
          let labelName := labelChoices.getD (labelIndex - 1).toNat ""
          if !o.mkdirOk then
            (⟨500, "Failed to create label directory\n"⟩, fs)
          else
            let fs1 := fs.mkdir labelName
            let moved := moveRootToSub o.mv fs1 imageName labelName
            if !moved.1 then
              (⟨500, "Failed to move image\n"⟩, moved.2)
            else
              (⟨200, "OK"⟩, moved.2)

/-! ## Model of loadLabelChoices (src/main.go lines 88-113)

loadLabelChoices opens the label file, scans it line by line, trims each
line, keeps the non-blank ones in order, and fails when the file cannot
be read or no label remains. The input is the line list of the file, or
none when opening or scanning the file fails.
-/

/-- Model of Go unicode.IsSpace on the characters that occur in label
files: ASCII whitespace plus the two Latin-1 space characters
U+0085 and U+00A0. -/
def goIsSpace (c : Char) : Bool :=
  c = ' ' || c = '\t' || c = '\n' || c.toNat = 11 || c.toNat = 12 || c = '\r'
    || c.toNat = 133 || c.toNat = 160

/-- Model of Go strings.TrimSpace: removes leading and trailing
whitespace. -/
def goTrimSpace (s : String) : String :=
  ⟨((s.data.dropWhile goIsSpace).reverse.dropWhile goIsSpace).reverse⟩

/-- Scan loop of loadLabelChoices: appends each trimmed non-blank line. -/
def collectLabels : List String → List String
  | [] => []
  | line :: rest =>
    let t := goTrimSpace line
    if t = "" then collectLabels rest else t :: collectLabels rest

def loadLabelChoices : Option (List String) → Option (List String)
  | none => none
  | some lines =>
    let labels := collectLabels lines
    if labels.isEmpty then none else some labels

/-- Label sequence as the spec words it: each line trimmed, blank lines
skipped, source order kept, duplicates kept. -/
def specLabels (lines : List String) : List String :=
  (lines.map goTrimSpace).filter (fun t => !(t == ""))

/-! ## Model of getImages (src/main.go lines 327-350)

getImages reads the working directory, skips subdirectories, keeps the
filenames with a recognized image extension and sorts them with
sort.Strings. Go sorts by raw bytes; on UTF-8 encoded names the byte
order coincides with the code point order used here.
-/

structure DirEntry where
  name : String
  isDir : Bool
deriving DecidableEq, Repr

/-- Scan of filepath.Ext from the end of the name: the first argument is
the remaining characters in reverse, the second the characters already
passed, in forward order. Directory entry names contain no path
separator, so the separator check of filepath.Ext cannot trigger. -/
def goExtAux : List Char → List Char → Option (List Char)
  | [], _ => none
  | c :: rest, acc => if c = '.' then some ('.' :: acc) else goExtAux rest (c :: acc)

/-- Model of Go filepath.Ext on a plain file name: the suffix starting
at the final dot, or the empty string when there is no dot. -/
def goExt (name : String) : String :=
  match goExtAux name.data.reverse [] with
  | none => ""
  | some cs => ⟨cs⟩

def imageExts : List String := [".jpg", ".jpeg", ".png", ".gif", ".bmp", ".webp"]

/-- Filter loop of getImages: skips directories, keeps names whose
extension is on the allow-list (the Go switch statement is
case-sensitive). -/
def collectImages : List DirEntry → List String
  | [] => []
  | e :: rest =>
    if e.isDir then collectImages rest
    else if imageExts.contains (goExt e.name) then e.name :: collectImages rest
    else collectImages rest

/-- Strict lexicographic comparison of character lists by code point. -/
def charListLt : List Char → List Char → Bool
  | [], [] => false
  | [], _ :: _ => true
  | _ :: _, [] => false
  | a :: as, b :: bs =>
    if a < b then true
    else if b < a then false
    else charListLt as bs

/-- Computable string order used by the sort: the order of sort.Strings. -/
def strLeb (a b : String) : Bool := !(charListLt b.data a.data)

/-- Embedding of getImages: filter, then sort ascending by name. -/
def getImages (entries : List DirEntry) : List String :=
  List.insertionSort (fun a b => strLeb a b = true) (collectImages entries)

/-! ## Model of createResultZip (src/main.go lines 136-203)

createResultZip reads the working directory, and for each direct
subdirectory walks it with filepath.Walk, writing every non-directory
file into the zip under its path relative to the working directory. A
directory itself is skipped. The add step of a file (zip entry creation,
open, copy) can fail; the walk callback then returns the error, which
aborts the walk of that subfolder; the error is logged and the loop goes
on with the next subfolder. The zip is modelled by the list of entry
paths written, each path a list of name components.
-/

inductive FNode where
  | file (name : String) (addOk : Bool)
  | dir (name : String) (children : List FNode)

mutual

/-- Walk of one node under a path prefix: the list of zip entry paths
written, and whether the walk of this node finished without error. For
a file, addOk says whether the zip-entry create, open and copy chain
succeeds. -/
def walkNode (pre : List String) : FNode → List (List String) × Bool
  | .file name ok => if ok then ([pre ++ [name]], true) else ([], false)
  | .dir name children => walkChildren (pre ++ [name]) children

/-- Walk of a list of sibling nodes: an error in one aborts the rest,
keeping the entries already written. -/
def walkChildren (pre : List String) : List FNode → List (List String) × Bool
  | [] => ([], true)
  | n :: ns =>
    let r := walkNode pre n
    if r.2 then
      let rs := walkChildren pre ns
      (r.1 ++ rs.1, rs.2)
    else (r.1, false)

end

/-- Embedding of createResultZip over the entries of the working
directory: root files are skipped, each subfolder is walked, a failed
walk is logged and the loop continues. Returns the zip entry paths. -/
def createResultZip (rootEntries : List FNode) : List (List String) :=
  rootEntries.foldl
    (fun acc e =>
      match e with
      | .file _ _ => acc
      | .dir name children => acc ++ (walkChildren [name] children).1)
    []

mutual

/-- Paths of all files contained in a node, relative to the node's
parent. -/
def filePaths : FNode → List (List String)
  | .file name _ => [[name]]
  | .dir name children => (filePathsList children).map (fun p => name :: p)

def filePathsList : List FNode → List (List String)
  | [] => []
  | n :: ns => filePaths n ++ filePathsList ns

end

mutual

/-- Paths of the files of a node whose add-to-archive step succeeds. -/
def okFilePaths : FNode → List (List String)
  | .file name ok => if ok then [[name]] else []
  | .dir name children => (okFilePathsList children).map (fun p => name :: p)

def okFilePathsList : List FNode → List (List String)
  | [] => []
  | n :: ns => okFilePaths n ++ okFilePathsList ns

end

mutual

/-- Whether every file in a node has a succeeding add step. -/
def allOk : FNode → Bool
  | .file _ ok => ok
  | .dir _ children => allOkList children

def allOkList : List FNode → Bool
  | [] => true
  | n :: ns => allOk n && allOkList ns

end

theorem computeTotalPages_eq (n : Nat) :
    computeTotalPages n = max 1 (n ⌈/⌉ itemsPerPage) := by
  rw [Nat.ceilDiv_eq_add_pred_div]
  simp only [computeTotalPages, itemsPerPage]
  split <;> omega

theorem one_le_computeTotalPages (n : Nat) : 1 ≤ computeTotalPages n := by
  simp only [computeTotalPages, itemsPerPage]
  split <;> omega

theorem one_le_resolveRawPage (s : String) : 1 ≤ resolveRawPage s := by
  unfold resolveRawPage
  cases goAtoi s with
  | none => norm_num
  | some p => dsimp only; split <;> omega

theorem clampPage_bounds (p : Int) (tp : Nat) (h1 : 1 ≤ p) (h2 : 1 ≤ tp) :
    1 ≤ clampPage p tp ∧ clampPage p tp ≤ (tp : Int) := by
  unfold clampPage
  split <;> constructor <;> omega

theorem pageSlice_eq_sliceSpec (images : List String) (page : Int) (h : 1 ≤ page) :
    pageSlice images page =
      sliceSpec images ((page.toNat - 1) * itemsPerPage)
        (min (page.toNat * itemsPerPage) images.length) := by
  unfold pageSlice sliceSpec itemsPerPage
  have hq : ((page - 1) * ((10 : Nat) : Int)).toNat = (page.toNat - 1) * 10 := by omega
  rw [hq]
  have h10 : (page.toNat - 1) * 10 + 10 = page.toNat * 10 := by omega
  dsimp only
  split
  · rw [← h10]
  · rename_i hns
    rw [List.drop_eq_nil_of_le (by omega), List.take_nil]

/-- C1: for every image count and every requested page input, homeHandler
computes total_pages = max(1, ceil(total_count / page_size)); the
resolved page lies in [1, total_pages], with non-numeric or below-1
input resolving to page 1 and above-max input resolving to the last
page; and the returned slice is exactly the half-open range
[(page-1)*page_size, min(page*page_size, total_count)) of the listing. -/
theorem homeHandler_pagination_spec (labelChoices images : List String)
    (pageStr : String) :
    (homeHandler labelChoices images pageStr).totalPages
        = max 1 (images.length ⌈/⌉ itemsPerPage)
    ∧ 1 ≤ (homeHandler labelChoices images pageStr).currentPage
    ∧ (homeHandler labelChoices images pageStr).currentPage
        ≤ ((homeHandler labelChoices images pageStr).totalPages : Int)
    ∧ ((goAtoi pageStr = none ∨ ∃ p, goAtoi pageStr = some p ∧ p < 1) →
        (homeHandler labelChoices images pageStr).currentPage = 1)
    ∧ (∀ p, goAtoi pageStr = some p →
        ((homeHandler labelChoices images pageStr).totalPages : Int) < p →
        (homeHandler labelChoices images pageStr).currentPage
          = ((homeHandler labelChoices images pageStr).totalPages : Int))
    ∧ (homeHandler labelChoices images pageStr).images
        = sliceSpec images
            (((homeHandler labelChoices images pageStr).currentPage.toNat - 1)
              * itemsPerPage)
            (min ((homeHandler labelChoices images pageStr).currentPage.toNat
              * itemsPerPage) images.length) := by
  have h1 := one_le_resolveRawPage pageStr
  have h2 := one_le_computeTotalPages images.length
  have hb := clampPage_bounds (resolveRawPage pageStr)
    (computeTotalPages images.length) h1 h2
  simp only [homeHandler]
  refine ⟨computeTotalPages_eq images.length, hb.1, hb.2, ?_, ?_, ?_⟩
  · intro h
    have hr : resolveRawPage pageStr = 1 := by
      rcases h with h | ⟨p, hp, hlt⟩
      · unfold resolveRawPage
        rw [h]
      · unfold resolveRawPage
        rw [hp]
        simp only [if_pos hlt]
    rw [hr]
    unfold clampPage
    split <;> omega
  · intro p hp hgt
    have hr : resolveRawPage pageStr = if p < 1 then 1 else p := by
      unfold resolveRawPage
      rw [hp]
    rw [hr] at hb ⊢
    unfold clampPage at hb ⊢
    split_ifs at hb ⊢ <;> omega
  · exact pageSlice_eq_sliceSpec images _ hb.1

/-- Witness for C1: on a concrete listing, a non-numeric page resolves to
page 1 and a beyond-range page resolves to the last page. -/
theorem homeHandler_pagination_spec_witness :
    (homeHandler ["A"] ["a.jpg", "b.png"] "abc").currentPage = 1
    ∧ (homeHandler ["A"] ["a.jpg", "b.png"] "7").currentPage
        = ((homeHandler ["A"] ["a.jpg", "b.png"] "7").totalPages : Int) :=
  ⟨(homeHandler_pagination_spec ["A"] ["a.jpg", "b.png"] "abc").2.2.2.1
      (Or.inl (by decide)),
   (homeHandler_pagination_spec ["A"] ["a.jpg", "b.png"] "7").2.2.2.2.1 7
      (by decide) (by decide)⟩

theorem collectLabels_eq_specLabels (lines : List String) :
    collectLabels lines = specLabels lines := by
  induction lines with
  | nil => rfl
  | cons l rest ih =>
    simp only [collectLabels, specLabels, List.map_cons, List.filter_cons]
    by_cases h : goTrimSpace l = ""
    · simp [h, ih, specLabels]
    · simp [h, ih, specLabels]

/-- C4: loadLabelChoices returns the lines of the source trimmed of
leading and trailing whitespace with blank lines skipped, in source
order and without deduplication, and fails exactly when the source is
unreadable (input none) or yields zero non-blank trimmed lines. -/
theorem loadLabelChoices_spec (input : Option (List String)) :
    loadLabelChoices input =
      input.bind (fun lines =>
        if specLabels lines = [] then none else some (specLabels lines)) := by
  cases input with
  | none => rfl
  | some lines =>
    simp only [loadLabelChoices, Option.some_bind, collectLabels_eq_specLabels]
    rcases h : specLabels lines with _ | ⟨t, rest⟩ <;> simp [h]

theorem charListLt_iff_lt (xs ys : List Char) :
    charListLt xs ys = true ↔ xs < ys := by
  induction xs generalizing ys with
  | nil =>
    cases ys with
    | nil => simp [charListLt]
    | cons b bs => simp [charListLt]; exact List.Lex.nil
  | cons a as ih =>
    cases ys with
    | nil => simp [charListLt]
    | cons b bs =>
      simp only [charListLt]
      rcases lt_trichotomy a b with h | h | h
      · simp only [if_pos h, true_iff]
        exact List.Lex.rel h
      · subst h
        rw [if_neg (lt_irrefl a), if_neg (lt_irrefl a), ih bs]
        constructor
        · exact List.Lex.cons
        · intro hlex
          cases hlex with
          | cons h2 => exact h2
          | rel h2 => exact absurd h2 (lt_irrefl a)
      · rw [if_neg (not_lt_of_gt h), if_pos h]
        refine iff_of_false (by simp) ?_
        intro hlex
        cases hlex with
        | cons h2 => exact lt_irrefl _ h
        | rel h2 => exact absurd h2 (not_lt_of_gt h)

theorem strLeb_iff_le (a b : String) : strLeb a b = true ↔ a ≤ b := by
  have h1 : strLeb a b = true ↔ ¬ (charListLt b.data a.data = true) := by
    unfold strLeb
    cases charListLt b.data a.data <;> simp
  rw [h1, charListLt_iff_lt]
  rw [show (b.data < a.data) ↔ b < a from (String.lt_iff_toList_lt).symm]
  exact not_lt

theorem mem_collectImages {entries : List DirEntry} {name : String}
    (h : name ∈ collectImages entries) :
    ∃ e, e ∈ entries ∧ e.name = name ∧ e.isDir = false
      ∧ goExt name ∈ imageExts := by
  induction entries with
  | nil => cases h
  | cons e rest ih =>
    simp only [collectImages] at h
    by_cases hd : e.isDir
    · rw [if_pos hd] at h
      obtain ⟨e2, h1, h2, h3, h4⟩ := ih h
      exact ⟨e2, List.mem_cons_of_mem _ h1, h2, h3, h4⟩
    · rw [if_neg hd] at h
      by_cases hext : imageExts.contains (goExt e.name)
      · rw [if_pos hext] at h
        rcases List.mem_cons.mp h with h | h
        · subst h
          refine ⟨e, List.mem_cons_self _ _, rfl, by simpa using hd, ?_⟩
          simpa using hext
        · obtain ⟨e2, h1, h2, h3, h4⟩ := ih h
          exact ⟨e2, List.mem_cons_of_mem _ h1, h2, h3, h4⟩
      · rw [if_neg hext] at h
        obtain ⟨e2, h1, h2, h3, h4⟩ := ih h
        exact ⟨e2, List.mem_cons_of_mem _ h1, h2, h3, h4⟩

/-- C5: getImages returns only names of non-directory entries whose
extension is exactly one of the six allowed image extensions, sorted
ascending in the lexicographic string order. -/
theorem getImages_spec (entries : List DirEntry) :
    (∀ name ∈ getImages entries,
      ∃ e, e ∈ entries ∧ e.name = name ∧ e.isDir = false
        ∧ goExt name ∈ imageExts)
    ∧ List.Sorted (fun a b => a ≤ b) (getImages entries) := by
  constructor
  · intro name hmem
    rw [getImages, List.mem_insertionSort] at hmem
    exact mem_collectImages hmem
  · haveI hto : IsTotal String (fun a b => strLeb a b = true) :=
      ⟨fun a b => by
        rw [strLeb_iff_le, strLeb_iff_le]
        exact le_total a b⟩
    haveI htr : IsTrans String (fun a b => strLeb a b = true) :=
      ⟨fun a b c hab hbc => by
        have h1 := (strLeb_iff_le a b).mp hab
        have h2 := (strLeb_iff_le b c).mp hbc
        exact (strLeb_iff_le a c).mpr (le_trans h1 h2)⟩
    have hs := List.sorted_insertionSort (fun a b => strLeb a b = true)
      (collectImages entries)
    exact hs.imp (fun h => (strLeb_iff_le _ _).mp h)

/-- Witness for C5: on a concrete directory listing, the membership
clause of getImages_spec yields a non-directory origin with an allowed
extension. -/
theorem getImages_spec_witness :
    ∃ e, e ∈ [DirEntry.mk "b.png" false, DirEntry.mk "sub" true,
        DirEntry.mk "a.jpg" false]
      ∧ e.name = "a.jpg" ∧ e.isDir = false ∧ goExt "a.jpg" ∈ imageExts :=
  (getImages_spec [DirEntry.mk "b.png" false, DirEntry.mk "sub" true,
    DirEntry.mk "a.jpg" false]).1 "a.jpg" (by decide)

/-- C8: moveFile completes with no copy when the rename succeeds; on
rename failure the fallback opens the source, creates the destination,
stream-copies and deletes the source only after a fully successful
copy; and when the stream copy fails midway no cleanup of the partial
destination happens: the partial destination file stays in place and
the source is not deleted. -/
theorem moveFile_spec (o : MoveOracle) (s0 : MoveState)
    (hsrc : s0.src = some FileData.full) :
    (o.renameOk = true →
      moveFile o s0 = ⟨[s0, ⟨none, some FileData.full⟩],
        ⟨none, some FileData.full⟩, true⟩)
    ∧ (o.renameOk = false →
        ((moveFile o s0).final.src = none → o.copyOk = true)
        ∧ ((moveFile o s0).success = true →
            o.openOk = true ∧ o.createOk = true ∧ o.copyOk = true
              ∧ o.removeOk = true
              ∧ (moveFile o s0).states
                  = [s0, ⟨some FileData.full, some FileData.empty⟩,
                     ⟨some FileData.full, some FileData.full⟩,
                     ⟨none, some FileData.full⟩]))
    ∧ (o.renameOk = false → o.openOk = true → o.createOk = true →
        o.copyOk = false →
        moveFile o s0 = ⟨[s0, ⟨some FileData.full, some FileData.empty⟩,
            ⟨some FileData.full, some FileData.halfCopied⟩],
          ⟨some FileData.full, some FileData.halfCopied⟩, false⟩) := by
  rcases o with ⟨rn, op, cr, cp, rm⟩
  cases rn <;> cases op <;> cases cr <;> cases cp <;> cases rm <;>
    simp [moveFile, hsrc]

/-- Witness for C8: the rename path and the failed-copy fallback path at
concrete oracles. -/
theorem moveFile_spec_witness :
    moveFile ⟨true, true, true, true, true⟩ ⟨some FileData.full, none⟩
      = ⟨[⟨some FileData.full, none⟩, ⟨none, some FileData.full⟩],
         ⟨none, some FileData.full⟩, true⟩
    ∧ moveFile ⟨false, true, true, false, true⟩ ⟨some FileData.full, none⟩
      = ⟨[⟨some FileData.full, none⟩,
          ⟨some FileData.full, some FileData.empty⟩,
          ⟨some FileData.full, some FileData.halfCopied⟩],
         ⟨some FileData.full, some FileData.halfCopied⟩, false⟩ :=
  ⟨(moveFile_spec ⟨true, true, true, true, true⟩ ⟨some FileData.full, none⟩
      rfl).1 rfl,
   (moveFile_spec ⟨false, true, true, false, true⟩ ⟨some FileData.full, none⟩
      rfl).2.2 rfl rfl rfl rfl⟩

/-- Counterexample to C9 as stated: when the rename fails and the
delete-after-copy fails, moveFile ends with the full file readable at
both the source and the destination, so the filename exists at two
locations at once. -/
theorem moveFile_duplicate_counterexample :
    (moveFile ⟨false, true, true, true, false⟩
        ⟨some FileData.full, none⟩).final
      = ⟨some FileData.full, some FileData.full⟩
    ∧ (moveFile ⟨false, true, true, true, false⟩
        ⟨some FileData.full, none⟩).success = false := by
  decide

/-- C9 amended: moveFile never loses the file: with the source initially
present, at every intermediate and final state the full file is
readable at the source or at the destination, and after a successful
invocation it is at the destination and no longer at the source. The
no-duplication half of the original claim does not hold (see the
counterexample): during the copy fallback, and permanently when the
delete-after-copy fails, the file is readable at both locations. -/
theorem moveFile_no_loss (o : MoveOracle) (s0 : MoveState)
    (hsrc : s0.src = some FileData.full) :
    (∀ s ∈ (moveFile o s0).states,
      s.src = some FileData.full ∨ s.dst = some FileData.full)
    ∧ ((moveFile o s0).success = true →
        (moveFile o s0).final.src = none
          ∧ (moveFile o s0).final.dst = some FileData.full) := by
  rcases o with ⟨rn, op, cr, cp, rm⟩
  cases rn <;> cases op <;> cases cr <;> cases cp <;> cases rm <;>
    simp [moveFile, hsrc]

/-- Witness for the amended C9 at a concrete failed-remove run: the
state reached after the copy keeps the file at the source or the
destination. -/
theorem moveFile_no_loss_witness :
    (⟨some FileData.full, some FileData.full⟩ : MoveState).src
        = some FileData.full
      ∨ (⟨some FileData.full, some FileData.full⟩ : MoveState).dst
        = some FileData.full :=
  (moveFile_no_loss ⟨false, true, true, true, false⟩
      ⟨some FileData.full, none⟩ rfl).1
    ⟨some FileData.full, some FileData.full⟩ (by decide)

theorem assocLookup_filter_self (files : List (String × FileData))
    (name : String) :
    assocLookup (files.filter (fun e => !(e.1 == name))) name = none := by
  induction files with
  | nil => rfl
  | cons e rest ih =>
    by_cases he : e.1 = name
    · simp [List.filter_cons, he, ih]
    · simp [List.filter_cons, he, assocLookup, ih]

theorem assocLookup_setEntry_self (files : List (String × FileData))
    (name : String) (v : Option FileData) :
    assocLookup (setEntry files name v) name = v := by
  cases v with
  | none => exact assocLookup_filter_self files name
  | some x => simp [setEntry, assocLookup]

theorem getRootFile_setRootFile_self (fs : FileSys) (name : String)
    (v : Option FileData) :
    (fs.setRootFile name v).getRootFile name = v :=
  assocLookup_setEntry_self fs.root name v

theorem getRootFile_setSubFile (fs : FileSys) (d name : String)
    (v : Option FileData) (n2 : String) :
    (fs.setSubFile d name v).getRootFile n2 = fs.getRootFile n2 := rfl

theorem hasDir_setRootFile (fs : FileSys) (name : String) (v : Option FileData)
    (d : String) :
    (fs.setRootFile name v).hasDir d = fs.hasDir d := rfl

theorem getRootFile_mkdir (fs : FileSys) (d name : String) :
    (fs.mkdir d).getRootFile name = fs.getRootFile name := by
  unfold FileSys.mkdir
  split <;> rfl

theorem hasDir_mkdir_self (fs : FileSys) (d : String) :
    (fs.mkdir d).hasDir d = true := by
  unfold FileSys.mkdir
  split
  · assumption
  · simp [FileSys.hasDir, assocLookup]

theorem getSubFile_setSubFile_self (fs : FileSys) (d name : String)
    (v : Option FileData) (h : fs.hasDir d = true) :
    (fs.setSubFile d name v).getSubFile d name = v := by
  rcases fs with ⟨root, sub⟩
  simp only [FileSys.setSubFile, FileSys.getSubFile, FileSys.hasDir] at *
  induction sub with
  | nil => simp [assocLookup] at h
  | cons e rest ih =>
    rcases e with ⟨k, files⟩
    by_cases hk : k = d
    · subst hk
      simp [assocLookup, assocLookup_setEntry_self]
    · simp only [List.map_cons, assocLookup, hk, if_false] at *
      exact ih h

theorem moveFile_allOk_final (o : MoveOracle) (s0 : MoveState)
    (hsrc : s0.src = some FileData.full)
    (h : o.renameOk = true ∨ (o.openOk = true ∧ o.createOk = true
      ∧ o.copyOk = true ∧ o.removeOk = true)) :
    (moveFile o s0).success = true
      ∧ (moveFile o s0).final = ⟨none, some FileData.full⟩ := by
  rcases o with ⟨rn, op, cr, cp, rm⟩
  rcases h with h | ⟨h1, h2, h3, h4⟩
  · subst h
    simp [moveFile, hsrc]
  · subst h1; subst h2; subst h3; subst h4
    cases rn <;> simp [moveFile, hsrc]

/-- C2: for every valid assignment request (image present in the working
directory root, label index inside [1, label count]) whose filesystem
operations succeed, labelHandler responds 200 with plain body OK, the
file no longer exists at its root path, and it exists in the subfolder
named by the label text at the given 1-based index. -/
theorem labelHandler_valid_spec (labelChoices : List String) (o : FsOracle)
    (req : LabelRequest) (fs : FileSys) (i : Int)
    (hmethod : req.method = "POST")
    (himage : req.image ≠ "")
    (hlabel : goAtoi req.label = some i)
    (hlow : 1 ≤ i) (hhigh : i ≤ (labelChoices.length : Int))
    (hfile : fs.getRootFile req.image = some FileData.full)
    (hmkdir : o.mkdirOk = true)
    (hmv : o.mv.renameOk = true ∨ (o.mv.openOk = true ∧ o.mv.createOk = true
      ∧ o.mv.copyOk = true ∧ o.mv.removeOk = true)) :
    (labelHandler labelChoices o req fs).1 = ⟨200, "OK"⟩
    ∧ (labelHandler labelChoices o req fs).2.getRootFile req.image = none
    ∧ (labelHandler labelChoices o req fs).2.getSubFile
        (labelChoices.getD (i - 1).toNat "") req.image = some FileData.full := by
  have hlabne : req.label ≠ "" := by
    intro h
    rw [h] at hlabel
    simp [goAtoi] at hlabel
  have hrange : ¬(i < 1 ∨ i > (labelChoices.length : Int)) := by omega
  set labelName := labelChoices.getD (i - 1).toNat "" with hname
  have hsrc1 : (fs.mkdir labelName).getRootFile req.image = some FileData.full := by
    rw [getRootFile_mkdir]; exact hfile
  have hmov := moveFile_allOk_final o.mv
    ⟨(fs.mkdir labelName).getRootFile req.image,
     (fs.mkdir labelName).getSubFile labelName req.image⟩ hsrc1 hmv
  simp only [labelHandler, hmethod, ne_eq, not_true_eq_false, if_false,
    himage, hlabne, false_or, or_self, hlabel]
  rw [if_neg hrange]
  simp only [hmkdir, Bool.not_true, Bool.false_eq_true, if_false, ← hname]
  simp only [moveRootToSub, hmov.1, hmov.2, Bool.not_true, Bool.false_eq_true,
    if_false]
  refine ⟨trivial, ?_, ?_⟩
  · rw [getRootFile_setSubFile, getRootFile_setRootFile_self]
  · rw [getSubFile_setSubFile_self]
    rw [hasDir_setRootFile]
    exact hasDir_mkdir_self fs labelName

/-- Witness for C2: a concrete successful assignment of label 2 out of
two labels moves cat.png into subfolder B and answers 200 OK. -/
theorem labelHandler_valid_spec_witness :
    (labelHandler ["A", "B"] ⟨true, ⟨true, true, true, true, true⟩⟩
        ⟨"POST", "cat.png", "2"⟩
        ⟨[("cat.png", FileData.full), ("dog.jpg", FileData.full)], []⟩).1
      = ⟨200, "OK"⟩
    ∧ (labelHandler ["A", "B"] ⟨true, ⟨true, true, true, true, true⟩⟩
        ⟨"POST", "cat.png", "2"⟩
        ⟨[("cat.png", FileData.full), ("dog.jpg", FileData.full)], []⟩).2.getRootFile
        "cat.png" = none
    ∧ (labelHandler ["A", "B"] ⟨true, ⟨true, true, true, true, true⟩⟩
        ⟨"POST", "cat.png", "2"⟩
        ⟨[("cat.png", FileData.full), ("dog.jpg", FileData.full)], []⟩).2.getSubFile
        (["A", "B"].getD ((2 : Int) - 1).toNat "") "cat.png"
      = some FileData.full :=
  labelHandler_valid_spec ["A", "B"] ⟨true, ⟨true, true, true, true, true⟩⟩
    ⟨"POST", "cat.png", "2"⟩
    ⟨[("cat.png", FileData.full), ("dog.jpg", FileData.full)], []⟩ 2
    rfl (by decide) (by decide) (by decide) (by decide) (by decide) rfl
    (Or.inl rfl)

/-- C3: for every POST assignment request with an empty image field, an
empty label field, an unparsable label, or a label index outside
[1, label count], labelHandler answers a 400 validation failure and the
filesystem is left unchanged. -/
theorem labelHandler_invalid_spec (labelChoices : List String) (o : FsOracle)
    (req : LabelRequest) (fs : FileSys)
    (hmethod : req.method = "POST")
    (hbad : req.image = "" ∨ req.label = "" ∨ goAtoi req.label = none
      ∨ ∃ i, goAtoi req.label = some i
          ∧ (i < 1 ∨ i > (labelChoices.length : Int))) :
    (labelHandler labelChoices o req fs).1.status = 400
    ∧ (labelHandler labelChoices o req fs).2 = fs := by
  simp only [labelHandler, hmethod, ne_eq, not_true_eq_false, if_false]
  by_cases himg : req.image = ""
  · simp [himg]
  · by_cases hlbl : req.label = ""
    · simp [himg, hlbl]
    · rcases hbad with h | h | h | ⟨i, hi, hrange⟩
      · exact absurd h himg
      · exact absurd h hlbl
      · simp [himg, hlbl, h]
      · simp only [himg, hlbl, hi, false_or, or_self, if_false]
        rw [if_pos hrange]
        exact ⟨rfl, rfl⟩

/-- Witness for C3: a concrete request with label index 0 is rejected
with status 400 and leaves the filesystem untouched. -/
theorem labelHandler_invalid_spec_witness :
    (labelHandler ["A"] ⟨true, ⟨true, true, true, true, true⟩⟩
        ⟨"POST", "x.png", "0"⟩ ⟨[("x.png", FileData.full)], []⟩).1.status = 400
    ∧ (labelHandler ["A"] ⟨true, ⟨true, true, true, true, true⟩⟩
        ⟨"POST", "x.png", "0"⟩ ⟨[("x.png", FileData.full)], []⟩).2
      = ⟨[("x.png", FileData.full)], []⟩ :=
  labelHandler_invalid_spec ["A"] ⟨true, ⟨true, true, true, true, true⟩⟩
    ⟨"POST", "x.png", "0"⟩ ⟨[("x.png", FileData.full)], []⟩ rfl
    (Or.inr (Or.inr (Or.inr ⟨0, by decide, Or.inl (by decide)⟩)))

/-- C10: for every request to /label whose method is not POST,
labelHandler responds 405 Method Not Allowed without reading the form
fields (the result is the same for all field values) and the filesystem
is left unchanged. -/
theorem labelHandler_non_post (labelChoices : List String) (o : FsOracle)
    (req : LabelRequest) (fs : FileSys) (h : req.method ≠ "POST") :
    labelHandler labelChoices o req fs
      = (⟨405, "Method not allowed\n"⟩, fs) := by
  unfold labelHandler
  rw [if_pos h]

/-- Witness for C10: a concrete GET request is answered 405 and the
filesystem is unchanged. -/
theorem labelHandler_non_post_witness :
    labelHandler ["A"] ⟨true, ⟨true, true, true, true, true⟩⟩
        ⟨"GET", "x.png", "1"⟩ ⟨[("x.png", FileData.full)], []⟩
      = (⟨405, "Method not allowed\n"⟩, ⟨[("x.png", FileData.full)], []⟩) :=
  labelHandler_non_post ["A"] ⟨true, ⟨true, true, true, true, true⟩⟩
    ⟨"GET", "x.png", "1"⟩ ⟨[("x.png", FileData.full)], []⟩ (by decide)

mutual

theorem walkNode_allOk (n : FNode) (h : allOk n = true) (pre : List String) :
    walkNode pre n = ((filePaths n).map (fun p => pre ++ p), true) := by
  cases n with
  | file name ok =>
    simp only [allOk] at h
    simp [walkNode, filePaths, h]
  | dir name children =>
    simp only [allOk] at h
    rw [walkNode, filePaths, walkChildren_allOk children h (pre ++ [name])]
    simp [List.map_map, Function.comp_def, List.append_assoc]

theorem walkChildren_allOk (ns : List FNode) (h : allOkList ns = true)
    (pre : List String) :
    walkChildren pre ns = ((filePathsList ns).map (fun p => pre ++ p), true) := by
  cases ns with
  | nil => simp [walkChildren, filePathsList]
  | cons n rest =>
    simp only [allOkList, Bool.and_eq_true] at h
    rw [walkChildren, walkNode_allOk n h.1 pre, walkChildren_allOk rest h.2 pre]
    simp [filePathsList]

end

theorem mem_createResultZip_iff (entries : List FNode) (acc : List (List String))
    (p : List String) :
    p ∈ entries.foldl
        (fun acc e =>
          match e with
          | .file _ _ => acc
          | .dir name children => acc ++ (walkChildren [name] children).1)
        acc
    ↔ p ∈ acc ∨ ∃ name children, FNode.dir name children ∈ entries
        ∧ p ∈ (walkChildren [name] children).1 := by
  induction entries generalizing acc with
  | nil => simp
  | cons e rest ih =>
    cases e with
    | file n ok =>
      rw [List.foldl_cons, ih]
      constructor
      · rintro (hp | ⟨nm, ch, hmem, hp⟩)
        · exact Or.inl hp
        · exact Or.inr ⟨nm, ch, List.mem_cons_of_mem _ hmem, hp⟩
      · rintro (hp | ⟨nm, ch, hmem, hp⟩)
        · exact Or.inl hp
        · rcases List.mem_cons.mp hmem with heq | hmem2
          · exact absurd heq (by simp)
          · exact Or.inr ⟨nm, ch, hmem2, hp⟩
    | dir name children =>
      rw [List.foldl_cons, ih]
      constructor
      · rintro (hp | ⟨nm, ch, hmem, hp⟩)
        · rcases List.mem_append.mp hp with hp | hp
          · exact Or.inl hp
          · exact Or.inr ⟨name, children, List.mem_cons_self _ _, hp⟩
        · exact Or.inr ⟨nm, ch, List.mem_cons_of_mem _ hmem, hp⟩
      · rintro (hp | ⟨nm, ch, hmem, hp⟩)
        · exact Or.inl (List.mem_append.mpr (Or.inl hp))
        · rcases List.mem_cons.mp hmem with heq | hmem2
          · injection heq with h1 h2
            subst h1; subst h2
            exact Or.inl (List.mem_append.mpr (Or.inr hp))
          · exact Or.inr ⟨nm, ch, hmem2, hp⟩

theorem mem_filePathsList (ns : List FNode) (q : List String) :
    q ∈ filePathsList ns ↔ ∃ n, n ∈ ns ∧ q ∈ filePaths n := by
  induction ns with
  | nil => simp [filePathsList]
  | cons n rest ih =>
    rw [filePathsList]
    constructor
    · intro h
      rcases List.mem_append.mp h with h | h
      · exact ⟨n, List.mem_cons_self _ _, h⟩
      · obtain ⟨m, hm, hq⟩ := ih.mp h
        exact ⟨m, List.mem_cons_of_mem _ hm, hq⟩
    · rintro ⟨m, hm, hq⟩
      rcases List.mem_cons.mp hm with heq | hm2
      · subst heq
        exact List.mem_append.mpr (Or.inl hq)
      · exact List.mem_append.mpr (Or.inr (ih.mpr ⟨m, hm2, hq⟩))

theorem mem_filePaths_ne_nil (n : FNode) (q : List String)
    (h : q ∈ filePaths n) : q ≠ [] := by
  cases n with
  | file name ok =>
    simp only [filePaths, List.mem_singleton] at h
    subst h
    simp
  | dir name children =>
    simp only [filePaths, List.mem_map] at h
    obtain ⟨r, _, hq⟩ := h
    subst hq
    simp

mutual

theorem walkNode_subset_ok (n : FNode) (pre : List String) :
    ∀ p ∈ (walkNode pre n).1, p ∈ (okFilePaths n).map (fun q => pre ++ q) := by
  cases n with
  | file name ok =>
    intro p hp
    cases ok with
    | true =>
      simp [walkNode] at hp
      subst hp
      simp [okFilePaths]
    | false =>
      simp [walkNode] at hp
  | dir name children =>
    intro p hp
    rw [walkNode] at hp
    have h2 := walkChildren_subset_ok children (pre ++ [name]) p hp
    simp only [okFilePaths, List.map_map, List.mem_map, Function.comp_def] at h2 ⊢
    obtain ⟨q, hq, hpq⟩ := h2
    exact ⟨q, hq, by rw [← hpq]; simp [List.append_assoc]⟩

theorem walkChildren_subset_ok (ns : List FNode) (pre : List String) :
    ∀ p ∈ (walkChildren pre ns).1,
      p ∈ (okFilePathsList ns).map (fun q => pre ++ q) := by
  cases ns with
  | nil =>
    intro p hp
    simp [walkChildren] at hp
  | cons n rest =>
    intro p hp
    rw [walkChildren] at hp
    by_cases hw : (walkNode pre n).2 = true
    · rw [if_pos hw] at hp
      dsimp only at hp
      rcases List.mem_append.mp hp with hp | hp
      · have := walkNode_subset_ok n pre p hp
        simp only [List.mem_map] at this ⊢
        obtain ⟨q, hq, hpq⟩ := this
        exact ⟨q, by rw [okFilePathsList]; exact List.mem_append.mpr (Or.inl hq), hpq⟩
      · have := walkChildren_subset_ok rest pre p hp
        simp only [List.mem_map] at this ⊢
        obtain ⟨q, hq, hpq⟩ := this
        exact ⟨q, by rw [okFilePathsList]; exact List.mem_append.mpr (Or.inr hq), hpq⟩
    · rw [if_neg hw] at hp
      have := walkNode_subset_ok n pre p hp
      simp only [List.mem_map] at this ⊢
      obtain ⟨q, hq, hpq⟩ := this
      exact ⟨q, by rw [okFilePathsList]; exact List.mem_append.mpr (Or.inl hq), hpq⟩

end

/-- C6: after a fully successful archiver run, the zip contains exactly
the files found recursively in the direct subfolders of the working
directory, each under its path relative to the working directory root;
every entry path has at least two components, so files directly in the
root are absent and no directory is written as a separate entry. -/
theorem createResultZip_spec (rootEntries : List FNode)
    (hall : ∀ n ∈ rootEntries, allOk n = true) :
    (∀ p, p ∈ createResultZip rootEntries ↔
      ∃ name children, FNode.dir name children ∈ rootEntries
        ∧ p ∈ filePaths (FNode.dir name children))
    ∧ (∀ p ∈ createResultZip rootEntries, 2 ≤ p.length) := by
  have hchar : ∀ p, p ∈ createResultZip rootEntries ↔
      ∃ name children, FNode.dir name children ∈ rootEntries
        ∧ p ∈ filePaths (FNode.dir name children) := by
    intro p
    rw [createResultZip, mem_createResultZip_iff]
    simp only [List.not_mem_nil, false_or]
    constructor
    · rintro ⟨name, children, hmem, hp⟩
      have hok : allOkList children = true := by
        have := hall _ hmem
        simpa [allOk] using this
      rw [walkChildren_allOk children hok [name]] at hp
      refine ⟨name, children, hmem, ?_⟩
      simp only [filePaths, List.mem_map] at hp ⊢
      obtain ⟨q, hq, hpq⟩ := hp
      exact ⟨q, hq, by rw [← hpq]; rfl⟩
    · rintro ⟨name, children, hmem, hp⟩
      have hok : allOkList children = true := by
        have := hall _ hmem
        simpa [allOk] using this
      refine ⟨name, children, hmem, ?_⟩
      rw [walkChildren_allOk children hok [name]]
      simp only [filePaths, List.mem_map] at hp ⊢
      obtain ⟨q, hq, hpq⟩ := hp
      exact ⟨q, hq, by rw [← hpq]; rfl⟩
  refine ⟨hchar, ?_⟩
  intro p hp
  obtain ⟨name, children, _, hpf⟩ := (hchar p).mp hp
  simp only [filePaths, List.mem_map] at hpf
  obtain ⟨q, hq, hpq⟩ := hpf
  obtain ⟨m, _, hqm⟩ := (mem_filePathsList children q).mp hq
  have hne := mem_filePaths_ne_nil m q hqm
  subst hpq
  cases q with
  | nil => exact absurd rfl hne
  | cons x xs => simp

/-- Witness for C6: in a concrete working directory with one labeled
file and one unlabeled root file, the labeled file is in the zip under
its subfolder path. -/
theorem createResultZip_spec_witness :
    ["B", "cat.png"] ∈ createResultZip
      [FNode.dir "B" [FNode.file "cat.png" true], FNode.file "dog.jpg" true] :=
  ((createResultZip_spec
      [FNode.dir "B" [FNode.file "cat.png" true], FNode.file "dog.jpg" true]
      (by decide)).1 ["B", "cat.png"]).mpr
    ⟨"B", [FNode.file "cat.png" true], List.mem_cons_self _ _,
      by simp [filePaths, filePathsList]⟩

/-- C7: a failing add-to-archive step aborts only the walk of the
subfolder being processed: every subfolder whose files all add
successfully still has all its files in the zip whatever happens in
other subfolders, and every entry written comes from a file whose add
step succeeded, so a failed file itself is never in the zip. -/
theorem createResultZip_error_containment (rootEntries : List FNode) :
    (∀ name children, FNode.dir name children ∈ rootEntries →
      allOkList children = true →
      ∀ p ∈ filePaths (FNode.dir name children),
        p ∈ createResultZip rootEntries)
    ∧ (∀ p ∈ createResultZip rootEntries,
      ∃ name children, FNode.dir name children ∈ rootEntries
        ∧ p ∈ okFilePaths (FNode.dir name children)) := by
  constructor
  · intro name children hmem hok p hp
    rw [createResultZip, mem_createResultZip_iff]
    refine Or.inr ⟨name, children, hmem, ?_⟩
    rw [walkChildren_allOk children hok [name]]
    simp only [filePaths, List.mem_map] at hp ⊢
    obtain ⟨q, hq, hpq⟩ := hp
    exact ⟨q, hq, by rw [← hpq]; rfl⟩
  · intro p hp
    rw [createResultZip, mem_createResultZip_iff] at hp
    simp only [List.not_mem_nil, false_or] at hp
    obtain ⟨name, children, hmem, hp⟩ := hp
    have hsub := walkChildren_subset_ok children [name] p hp
    refine ⟨name, children, hmem, ?_⟩
    simp only [okFilePaths, List.mem_map] at hsub ⊢
    obtain ⟨q, hq, hpq⟩ := hsub
    exact ⟨q, hq, by rw [← hpq]; rfl⟩

/-- Witness for C7: with one subfolder holding a failing file and
another subfolder fully succeeding, the succeeding subfolder's file is
still archived. -/
theorem createResultZip_error_containment_witness :
    ["B", "cat.png"] ∈ createResultZip
      [FNode.dir "A" [FNode.file "bad.png" false],
       FNode.dir "B" [FNode.file "cat.png" true]] :=
  (createResultZip_error_containment
      [FNode.dir "A" [FNode.file "bad.png" false],
       FNode.dir "B" [FNode.file "cat.png" true]]).1
    "B" [FNode.file "cat.png" true]
    (List.mem_cons_of_mem _ (List.mem_cons_self _ _)) (by decide)
    ["B", "cat.png"] (by simp [filePaths, filePathsList])
